import Mathlib

/-!
Verification of the `ReadmeManager` line-buffer / Markdown-table core.

The Python class keeps the document as a mutable list of strings
(`self.content`).  We embed each method as a pure function from the old
buffer (a `List String`) to the new buffer, pairing it with an optional
error value for the methods that can raise.  Python string primitives used
by the code (`strip`, `replace`, `split("|")`, `"|".join`, `startswith`,
substring containment, `splitlines`) are embedded at the character-list
level so that the proofs can proceed by structural induction.
-/

set_option autoImplicit false

namespace ReadmeManager

/-- Python `str.strip()` on a character list: drop whitespace from both
ends. -/
def stripData (l : List Char) : List Char :=
  ((l.dropWhile Char.isWhitespace).reverse.dropWhile Char.isWhitespace).reverse

/-- Python `s.strip()`. -/
def pyStrip (s : String) : String :=
  ⟨stripData s.data⟩

/-- Python `s.replace("|", rep)` on a character list: the pattern is the
single character `|`, so each occurrence is replaced independently. -/
def replacePipeData (rep : List Char) : List Char → List Char
  | [] => []
  | c :: rest => (if c = '|' then rep else [c]) ++ replacePipeData rep rest

/-- Python `s.replace("|", rep)`. -/
def pyReplacePipe (s : String) (rep : String) : String :=
  ⟨replacePipeData rep.data s.data⟩

/-- `create_link`: `[{text}]({url})` with `|` escaped to `\|` in the text
and `%7C` in the url, both stripped. -/
def create_link (text url : String) : String :=
  "[" ++ pyStrip (pyReplacePipe text "\\|") ++ "](" ++ pyStrip (pyReplacePipe url "%7C") ++ ")"

/-- `create_image_link`: bare image markup, wrapped in a link only when
`link_url` is truthy (Python `if link_url:` is false for `None` and for the
empty string). -/
def create_image_link (alt_text image_url : String) (link_url : Option String) : String :=
  let altE := pyStrip (pyReplacePipe alt_text "\\|")
  let imageE := pyStrip (pyReplacePipe image_url "%7C")
  let image := "![" ++ altE ++ "](" ++ imageE ++ ")"
  match link_url with
  | none => image
  | some l => if l = "" then image else "[" ++ image ++ "](" ++ pyStrip (pyReplacePipe l "%7C") ++ ")"

/-- Error values raised by the buffer operations: `ValueError` on empty
headers/values, `ValueError` ("no tables") on column insertion without a
table, and Python's `IndexError` for the degenerate-region slice access. -/
inductive RmError where
  | invalidArgument (msg : String) : RmError
  | notFound (msg : String) : RmError
  | indexError : RmError
deriving DecidableEq

/-- `add_header`: appends the single string
`f'\n{"#" * level} {text.strip()}\n'` with `level` clamped to `[1, 6]`. -/
def add_header (content : List String) (text : String) (level : Int) : List String :=
  let lv : Nat := (max 1 (min 6 level)).toNat
  content ++ ["\n" ++ ⟨List.replicate lv '#'⟩ ++ " " ++ pyStrip text ++ "\n"]

/-- `add_text`: appends the single string `f'{text}\n'`. -/
def add_text (content : List String) (text : String) : List String :=
  content ++ [text ++ "\n"]

/-- `sep.join(parts)` on character lists (used with `" | "`, `"|"` and
`"\n"`). -/
def joinSepData (sep : List Char) : List (List Char) → List Char
  | [] => []
  | [x] => x
  | x :: y :: ys => x ++ sep ++ joinSepData sep (y :: ys)

/-- `'| ' + ' | '.join(cells) + ' |'`. -/
def makeRow (cells : List String) : String :=
  ⟨'|' :: ' ' :: (joinSepData [' ', '|', ' '] (cells.map String.data) ++ [' ', '|'])⟩

/-- `create_table`: raises `ValueError` on an empty header list, otherwise
appends a blank line, the header row and the `---` separator row. -/
def create_table (content : List String) (headers : List String) :
    List String × Option RmError :=
  if headers.isEmpty then
    (content, some (RmError.invalidArgument "Headers list cannot be empty"))
  else
    let hs := headers.map pyStrip
    (content ++ ["", makeRow hs, makeRow (List.replicate hs.length "---")], none)

/-- `add_table_row`: raises `ValueError` on an empty value list, otherwise
appends one pipe row of the stripped values. -/
def add_table_row (content : List String) (values : List String) :
    List String × Option RmError :=
  if values.isEmpty then
    (content, some (RmError.invalidArgument "Values list cannot be empty"))
  else
    (content ++ [makeRow (values.map pyStrip)], none)

/-- Python `line.startswith("|")`. -/
def startsWithPipe (s : String) : Bool :=
  match s.data with
  | '|' :: _ => true
  | _ => false

/-- Python `"---" in s` on a character list. -/
def hasTripleDashData : List Char → Bool
  | '-' :: '-' :: '-' :: _ => true
  | _ :: rest => hasTripleDashData rest
  | [] => false

/-- Python `"---" in s`. -/
def hasTripleDash (s : String) : Bool :=
  hasTripleDashData s.data

/-- The loop body of `find_table_indices`, iterating over the remaining
lines with `i` the index of the head of `rest` in the full buffer.  The
first branch marks a tentative start when the line starts with `|` and the
next line exists and contains `---`; the `elif` branch closes an open
region when the line no longer starts with `|` or the scan is at the last
line. -/
def goFind : List String → Nat → Option Nat → List (Nat × Nat) → List (Nat × Nat)
  | [], _, _, acc => acc
  | line :: rest, i, start?, acc =>
    if startsWithPipe line && !rest.isEmpty && hasTripleDash (rest.headD "") then
      goFind rest (i + 1) (some i) acc
    else
      match start? with
      | some s =>
        if !startsWithPipe line || rest.isEmpty then
          goFind rest (i + 1) none (acc ++ [(s, if !startsWithPipe line then i else i + 1)])
        else
          goFind rest (i + 1) (some s) acc
      | none => goFind rest (i + 1) none acc

/-- `find_table_indices`: the single scan over the whole buffer. -/
def find_table_indices (content : List String) : List (Nat × Nat) :=
  goFind content 0 none []

/-- Python `line.split("|")` at the character level: splitting on a single
character, always returning at least one (possibly empty) part. -/
def splitOnChar (sep : Char) : List Char → List (List Char)
  | [] => [[]]
  | c :: rest =>
    if c = sep then
      [] :: splitOnChar sep rest
    else
      match splitOnChar sep rest with
      | [] => [[c]]
      | l :: ls => (c :: l) :: ls

/-- Python `parts.insert(-1, x)`: insert just before the last element. -/
def insertBeforeLastL (l : List (List Char)) (x : List Char) : List (List Char) :=
  l.take (l.length - 1) ++ x :: l.drop (l.length - 1)

/-- One column-splice on one already-rendered row: split on `|`, insert the
new segment before the trailing empty part, and re-join with `|`. -/
def spliceSeg (line : String) (seg : List Char) : String :=
  ⟨joinSepData ['|'] (insertBeforeLastL (splitOnChar '|' line.data) seg)⟩

/-- The data-row loop of `add_column`: `for i, value in enumerate(values,
start=2): if start_idx + i < end_idx: splice`.  `idx` is the absolute
buffer index `start_idx + i`. -/
def dataLoop : List String → Nat → Nat → List String → List String
  | content, _, _, [] => content
  | content, idx, e, v :: vs =>
    dataLoop
      (if idx < e then
        content.set idx (spliceSeg (content.getD idx "") (' ' :: (stripData v.data ++ [' '])))
      else content)
      (idx + 1) e vs

/-- `add_column`: find the last table region, splice the header cell into
its first row and ` --- ` into its second row, then run the data-row loop
(with `[""] * (len(rows) - 2)` when `values` is `None`).  The two
`indexError` outcomes model Python's `IndexError` on `rows[0]` / `rows[1]`
for degenerate regions; the header row is already mutated when `rows[1]`
raises, exactly as in the source. -/
def add_column (content : List String) (header : String) (values : Option (List String)) :
    List String × Option RmError :=
  match (find_table_indices content).getLast? with
  | none => (content, some (RmError.notFound "No tables found in the README"))
  | some (s, e) =>
    let rows := (content.drop s).take (e - s)
    if rows.length = 0 then (content, some RmError.indexError)
    else
      let content1 := content.set s
        (spliceSeg (rows.getD 0 "") (' ' :: (stripData header.data ++ [' '])))
      if rows.length < 2 then (content1, some RmError.indexError)
      else
        let content2 := content1.set (s + 1)
          (spliceSeg (rows.getD 1 "") [' ', '-', '-', '-', ' '])
        let vals := values.getD (List.replicate (rows.length - 2) "")
        (dataLoop content2 (s + 2) e vals, none)

/-- The characters Python `str.splitlines()` treats as line boundaries, by
code point: `\n`, `\r`, `\v`, `\f`, FS, GS, RS, NEL (U+0085), LINE
SEPARATOR (U+2028) and PARAGRAPH SEPARATOR (U+2029). -/
def isPyLineBreak (c : Char) : Bool :=
  [10, 13, 11, 12, 28, 29, 30, 133, 8232, 8233].contains c.toNat

/-- Python `str.splitlines()` on a character list: split at every line
boundary, treat `\r\n` as a single boundary, and do not produce a final
empty line for a trailing terminator. -/
def pySplitlinesData : List Char → List (List Char)
  | [] => []
  | '\r' :: '\n' :: rest => [] :: pySplitlinesData rest
  | c :: rest =>
    if isPyLineBreak c then
      [] :: pySplitlinesData rest
    else
      match pySplitlinesData rest with
      | [] => [[c]]
      | l :: ls => (c :: l) :: ls

/-- `save`: the text written to storage, `'\n'.join(content) + '\n'`. -/
def save_text (content : List String) : String :=
  ⟨joinSepData ['\n'] (content.map String.data) ++ ['\n']⟩

/-- `_load_content` in preserve mode: `read_text().splitlines()`. -/
def load_content (text : String) : List String :=
  (pySplitlinesData text.data).map String.mk

/-- The Line Buffer invariant claimed by the spec: every element is a
single document line with no embedded newline. -/
def noEmbeddedNewline (content : List String) : Prop :=
  ∀ s ∈ content, '\n' ∉ s.data

instance : DecidablePred noEmbeddedNewline := fun content =>
  inferInstanceAs (Decidable (∀ s ∈ content, '\n' ∉ s.data))

end ReadmeManager

open ReadmeManager

/-! ### Generic list helper lemmas -/

theorem getD_set_ne {α : Type} (l : List α) {n m : Nat} (a d : α) (h : n ≠ m) :
    (l.set n a).getD m d = l.getD m d := by
  simp [List.getD_eq_getD_get?, List.get?_eq_getElem?, List.getElem?_set_ne h]

theorem getD_set_self {α : Type} (l : List α) {n : Nat} (a d : α) (h : n < l.length) :
    (l.set n a).getD n d = a := by
  simp [List.getD_eq_getD_get?, List.get?_eq_getElem?, List.getElem?_set_self, h]

theorem getD_take_drop {α : Type} (l : List α) {s k i : Nat} (d : α) (h : i < k) :
    ((l.drop s).take k).getD i d = l.getD (s + i) d := by
  simp [List.getD_eq_getD_get?, List.get?_eq_getElem?, List.getElem?_take_of_lt h,
    List.getElem?_drop]

theorem getD_concat_self {α : Type} (l : List α) (a d : α) :
    (l ++ [a]).getD l.length d = a := by
  simp [List.getD_eq_getD_get?, List.get?_eq_getElem?, List.getElem?_concat_length]

/-! ### C7: empty-argument validation -/

/-- C7: `create_table([])` and `add_table_row([])` both fail with the
InvalidArgument-kind error (`ValueError`) and leave the buffer unchanged. -/
theorem C7_empty_args_fail (content : List String) :
    create_table content [] =
      (content, some (RmError.invalidArgument "Headers list cannot be empty")) ∧
    add_table_row content [] =
      (content, some (RmError.invalidArgument "Values list cannot be empty")) :=
  ⟨rfl, rfl⟩

/-! ### C8: create_table then add_table_row -/

/-- C8: from any starting buffer, `create_table(["A","B","C"])` followed by
`add_table_row(["x","y","z"])` appends exactly the blank line and the three
table lines, the separator having one `---` segment per header. -/
theorem C8_table_build (content : List String) :
    (add_table_row (create_table content ["A", "B", "C"]).1 ["x", "y", "z"]).1 =
      content ++ ["", "| A | B | C |", "| --- | --- | --- |", "| x | y | z |"] := by
  simp [create_table, add_table_row]
  refine ⟨by decide, by decide, by decide⟩

/-! ### C6: add_column with no table -/

/-- C6: when the scanner finds no table region, `add_column` fails with the
NotFound-kind error (`ValueError("No tables found in the README")`) and
returns the buffer exactly as it was. -/
theorem C6_add_column_no_table (content : List String) (header : String)
    (values : Option (List String)) (h : find_table_indices content = []) :
    add_column content header values =
      (content, some (RmError.notFound "No tables found in the README")) := by
  unfold add_column
  rw [h]
  rfl

/-- Witness for C6 at a concrete buffer with no pipe line. -/
theorem C6_witness :
    add_column ["hello"] "H" none =
      (["hello"], some (RmError.notFound "No tables found in the README")) :=
  C6_add_column_no_table ["hello"] "H" none (by decide)

/-! ### C2: add_header -/

/-- C2 counterexample: `add_header` appends a single element (a string with
embedded newlines), not three separate buffer elements. -/
theorem C2_counterexample :
    (add_header [] "T" 2).length = 1 ∧ add_header [] "T" 2 ≠ ["", "## T", ""] := by
  decide

/-- C2 amended: `add_header` appends exactly one element, the string made of
a newline, the clamped number of `#` characters, a space, the stripped text
and a final newline; the clamp keeps the level in `[1, 6]`. -/
theorem C2_amended (content : List String) (text : String) (level : Int) :
    (add_header content text level).length = content.length + 1 ∧
    add_header content text level =
      content ++
        [⟨'\n' :: (List.replicate (max 1 (min 6 level)).toNat '#' ++
          ' ' :: (stripData text.data ++ ['\n']))⟩] ∧
    1 ≤ (max 1 (min 6 level)).toNat ∧ (max 1 (min 6 level)).toNat ≤ 6 := by
  refine ⟨by simp [add_header], ?_, by omega, by omega⟩
  have hs : ∀ (a b : List Char), (⟨a⟩ ++ ⟨b⟩ : String) = ⟨a ++ b⟩ := fun a b => rfl
  simp only [add_header]
  congr 1
  congr 1
  rw [show ("\n" : String) = ⟨['\n']⟩ from rfl, show (" " : String) = ⟨[' ']⟩ from rfl,
    show pyStrip text = ⟨stripData text.data⟩ from rfl, hs, hs, hs, hs]
  congr 1
  simp

/-! ### C9: create_image_link -/

/-- C9 counterexample: a present but empty `link_url` is falsy in Python, so
the bare image markup is returned, not the link-wrapped form. -/
theorem C9_counterexample :
    create_image_link "a" "b" (some "") = "![a](b)" ∧
    ("![a](b)" : String) ≠ "[![a](b)]()" := by
  decide

/-- C9 amended: the image markup is wrapped in a link exactly when
`link_url` is present and non-empty; an absent or empty `link_url` yields
the bare image markup. -/
theorem C9_amended (alt_text image_url : String) (l : String) (h : l ≠ "") :
    create_image_link alt_text image_url none =
      "![" ++ pyStrip (pyReplacePipe alt_text "\\|") ++ "](" ++
        pyStrip (pyReplacePipe image_url "%7C") ++ ")" ∧
    create_image_link alt_text image_url (some "") =
      create_image_link alt_text image_url none ∧
    create_image_link alt_text image_url (some l) =
      "[" ++ create_image_link alt_text image_url none ++ "](" ++
        pyStrip (pyReplacePipe l "%7C") ++ ")" := by
  refine ⟨rfl, rfl, ?_⟩
  simp [create_image_link, h]

/-- Witness for C9 at concrete escaped and trimmed inputs. -/
theorem C9_witness : create_image_link "a" "b" (some "c") = "[![a](b)](c)" := by
  have h := (C9_amended "a" "b" "c" (by decide)).2.2
  rw [h]
  decide

/-! ### C5: the table-region scanner -/

theorem drop_cons_facts {α : Type} : ∀ (i : Nat) (content : List α) (line : α) (rest : List α),
    content.drop i = line :: rest →
    content.get? i = some line ∧ content.drop (i + 1) = rest := by
  intro i
  induction i with
  | zero =>
    intro content line rest h
    rw [List.drop_zero] at h
    subst h
    exact ⟨rfl, by simp⟩
  | succ n ih =>
    intro content line rest h
    cases content with
    | nil => simp at h
    | cons a as =>
      rw [List.drop_succ_cons] at h
      exact ih as line rest h

theorem get?_some_lt {α : Type} {l : List α} {n : Nat} {a : α} (h : l.get? n = some a) :
    n < l.length := by
  by_contra hn
  push_neg at hn
  rw [List.get?_eq_none.2 hn] at h
  cases h

/-- Every region start accumulated by the scanner loop satisfies the
region-begin condition of the source's first branch. -/
theorem goFind_start_cond (content : List String) :
    ∀ (rest : List String) (i : Nat) (start? : Option Nat) (acc : List (Nat × Nat)),
      content.drop i = rest →
      (∀ pr ∈ acc, startsWithPipe (content.getD pr.1 "") = true ∧
        pr.1 + 1 < content.length ∧ hasTripleDash (content.getD (pr.1 + 1) "") = true) →
      (∀ s, start? = some s → startsWithPipe (content.getD s "") = true ∧
        s + 1 < content.length ∧ hasTripleDash (content.getD (s + 1) "") = true) →
      ∀ pr ∈ goFind rest i start? acc,
        startsWithPipe (content.getD pr.1 "") = true ∧
        pr.1 + 1 < content.length ∧ hasTripleDash (content.getD (pr.1 + 1) "") = true := by
  intro rest
  induction rest with
  | nil =>
    intro i start? acc _ hacc _ pr hpr
    simp only [goFind] at hpr
    exact hacc pr hpr
  | cons line rest ih =>
    intro i start? acc hdrop hacc hstart pr hpr
    obtain ⟨hget, hdrop'⟩ := drop_cons_facts i content line rest hdrop
    have hgetD : content.getD i "" = line := by
      rw [List.getD_eq_getD_get?, hget]
      rfl
    simp only [goFind] at hpr
    by_cases hc : (startsWithPipe line && !rest.isEmpty && hasTripleDash (rest.headD "")) = true
    · rw [if_pos hc] at hpr
      refine ih (i + 1) (some i) acc hdrop' hacc ?_ pr hpr
      intro s hs
      injection hs with hs
      subst hs
      simp only [Bool.and_eq_true] at hc
      obtain ⟨⟨hpipe, hne⟩, hdash⟩ := hc
      cases rest with
      | nil => simp at hne
      | cons l2 r2 =>
        obtain ⟨hget2, _⟩ := drop_cons_facts (i + 1) content l2 r2 hdrop'
        have hlt : i + 1 < content.length := get?_some_lt hget2
        have hgetD2 : content.getD (i + 1) "" = l2 := by
          rw [List.getD_eq_getD_get?, hget2]
          rfl
        refine ⟨by rw [hgetD]; exact hpipe, hlt, ?_⟩
        rw [hgetD2]
        simpa using hdash
    · rw [if_neg hc] at hpr
      cases start? with
      | some s =>
        have hpr2 : pr ∈ (if (!startsWithPipe line || rest.isEmpty) = true then
            goFind rest (i + 1) none
              (acc ++ [(s, if (!startsWithPipe line) = true then i else i + 1)])
          else goFind rest (i + 1) (some s) acc) := hpr
        by_cases hcl : (!startsWithPipe line || rest.isEmpty) = true
        · rw [if_pos hcl] at hpr2
          refine ih (i + 1) none _ hdrop' ?_ (fun s' h => by cases h) pr hpr2
          intro pr' hpr'
          rcases List.mem_append.1 hpr' with h | h
          · exact hacc pr' h
          · rw [List.mem_singleton] at h
            subst h
            exact hstart s rfl
        · rw [if_neg hcl] at hpr2
          exact ih (i + 1) (some s) acc hdrop' hacc hstart pr hpr2
      | none =>
        have hpr2 : pr ∈ goFind rest (i + 1) none acc := hpr
        exact ih (i + 1) none acc hdrop' hacc (fun s' h => by cases h) pr hpr2

/-- On a buffer with no line starting with `|`, the scanner loop never opens
a region. -/
theorem goFind_no_pipe : ∀ (rest : List String) (i : Nat) (acc : List (Nat × Nat)),
    (∀ l ∈ rest, startsWithPipe l = false) →
    goFind rest i none acc = acc := by
  intro rest
  induction rest with
  | nil => intro i acc _; rfl
  | cons line rest ih =>
    intro i acc h
    have hpipe : startsWithPipe line = false := h line (List.mem_cons_self line rest)
    have hc : (startsWithPipe line && !rest.isEmpty && hasTripleDash (rest.headD "")) = false := by
      rw [hpipe]
      rfl
    simp only [goFind, hc, Bool.false_eq_true, if_false]
    exact ih (i + 1) acc fun l hl => h l (List.mem_cons_of_mem _ hl)

/-- C5: every region returned by the scanner begins at an index whose line
starts with `|` and whose successor line exists and contains `---`; a
buffer holding two separate tables yields exactly two non-overlapping
regions in document order; a buffer with no line starting with `|` yields
no region. -/
theorem C5_scanner :
    (∀ (content : List String) (s e : Nat), (s, e) ∈ find_table_indices content →
      startsWithPipe (content.getD s "") = true ∧ s + 1 < content.length ∧
      hasTripleDash (content.getD (s + 1) "") = true) ∧
    (find_table_indices ["| A |", "| --- |", "| 1 |", "", "| B |", "| --- |", "| 2 |"] =
        [(0, 3), (4, 7)] ∧ (0 : Nat) < 3 ∧ (3 : Nat) ≤ 4 ∧ (4 : Nat) < 7) ∧
    (∀ content : List String, (∀ l ∈ content, startsWithPipe l = false) →
      find_table_indices content = []) := by
  refine ⟨?_, by decide, ?_⟩
  · intro content s e hmem
    have h := goFind_start_cond content content 0 none [] (by simp) (by simp)
      (fun s' h => by cases h) (s, e) hmem
    simpa using h
  · intro content h
    exact goFind_no_pipe content 0 [] h

/-- Witness for C5 at a concrete single-table buffer. -/
theorem C5_witness :
    startsWithPipe ((["t", "| A |", "| --- |"] : List String).getD 1 "") = true ∧
    (1 : Nat) + 1 < (["t", "| A |", "| --- |"] : List String).length ∧
    hasTripleDash ((["t", "| A |", "| --- |"] : List String).getD (1 + 1) "") = true :=
  C5_scanner.1 ["t", "| A |", "| --- |"] 1 3 (by decide)

/-! ### add_column: the data-row loop -/

theorem dataLoop_length : ∀ (vs c : List String) (idx e : Nat),
    (dataLoop c idx e vs).length = c.length := by
  intro vs
  induction vs with
  | nil => intro c idx e; rfl
  | cons v vs ih =>
    intro c idx e
    simp only [dataLoop]
    rw [ih]
    by_cases h : idx < e
    · rw [if_pos h, List.length_set]
    · rw [if_neg h]

theorem dataLoop_getD_lt : ∀ (vs c : List String) (idx e j : Nat) (d : String), j < idx →
    (dataLoop c idx e vs).getD j d = c.getD j d := by
  intro vs
  induction vs with
  | nil => intro c idx e j d _; rfl
  | cons v vs ih =>
    intro c idx e j d h
    simp only [dataLoop]
    rw [ih _ _ _ _ _ (Nat.lt_succ_of_lt h)]
    by_cases he : idx < e
    · rw [if_pos he, getD_set_ne _ _ _ (by omega)]
    · rw [if_neg he]

theorem dataLoop_getD_ge : ∀ (vs c : List String) (idx e j : Nat) (d : String), e ≤ j →
    (dataLoop c idx e vs).getD j d = c.getD j d := by
  intro vs
  induction vs with
  | nil => intro c idx e j d _; rfl
  | cons v vs ih =>
    intro c idx e j d h
    simp only [dataLoop]
    rw [ih _ _ _ _ _ h]
    by_cases he : idx < e
    · rw [if_pos he, getD_set_ne _ _ _ (by omega)]
    · rw [if_neg he]

theorem dataLoop_getD_miss : ∀ (vs c : List String) (idx e j : Nat) (d : String),
    idx + vs.length ≤ j →
    (dataLoop c idx e vs).getD j d = c.getD j d := by
  intro vs
  induction vs with
  | nil => intro c idx e j d _; rfl
  | cons v vs ih =>
    intro c idx e j d h
    simp only [List.length_cons] at h
    simp only [dataLoop]
    rw [ih _ _ _ _ _ (by omega)]
    by_cases he : idx < e
    · rw [if_pos he, getD_set_ne _ _ _ (by omega)]
    · rw [if_neg he]

theorem dataLoop_getD_hit : ∀ (vs c : List String) (idx e j : Nat),
    idx ≤ j → j < e → j < idx + vs.length → j < c.length →
    (dataLoop c idx e vs).getD j "" =
      spliceSeg (c.getD j "") (' ' :: (stripData (vs.getD (j - idx) "").data ++ [' '])) := by
  intro vs
  induction vs with
  | nil =>
    intro c idx e j h1 _ h3 _
    simp only [List.length_nil] at h3
    omega
  | cons v vs ih =>
    intro c idx e j h1 h2 h3 h4
    simp only [dataLoop]
    by_cases hj : j = idx
    · subst hj
      rw [if_pos h2]
      rw [dataLoop_getD_lt vs _ _ _ _ _ (Nat.lt_succ_self j)]
      rw [getD_set_self _ _ _ h4]
      simp [Nat.sub_self]
    · have hlt : idx < j := Nat.lt_of_le_of_ne h1 (Ne.symm hj)
      rw [if_pos (by omega)]
      rw [ih _ (idx + 1) e j hlt h2 (by simp only [List.length_cons] at h3; omega)
        (by rw [List.length_set]; exact h4)]
      rw [getD_set_ne _ _ _ (by omega)]
      have hk : j - idx = (j - (idx + 1)) + 1 := by omega
      rw [hk]
      rfl

theorem dataLoop_ge : ∀ (vs c : List String) (idx e : Nat), e ≤ idx →
    dataLoop c idx e vs = c := by
  intro vs
  induction vs with
  | nil => intro c idx e _; rfl
  | cons v vs ih =>
    intro c idx e h
    simp only [dataLoop]
    rw [if_neg (by omega)]
    exact ih _ _ _ (by omega)

theorem dataLoop_take : ∀ (vs c : List String) (idx e : Nat),
    dataLoop c idx e vs = dataLoop c idx e (vs.take (e - idx)) := by
  intro vs
  induction vs with
  | nil => intro c idx e; rw [List.take_nil]
  | cons v vs ih =>
    intro c idx e
    by_cases he : idx < e
    · have hk : e - idx = (e - (idx + 1)) + 1 := by omega
      rw [hk, List.take_succ_cons]
      simp only [dataLoop]
      exact ih _ (idx + 1) e
    · have hk : e - idx = 0 := by omega
      rw [hk, List.take_zero]
      simp only [dataLoop, if_neg he]
      exact dataLoop_ge vs c (idx + 1) e (by omega)

theorem getD_replicate_self {α : Type} (a d : α) : ∀ (n k : Nat), k < n →
    (List.replicate n a).getD k d = a := by
  intro n
  induction n with
  | zero => intro k h; exact absurd h (by omega)
  | succ n ih =>
    intro k h
    cases k with
    | zero => rfl
    | succ k => exact ih k (by omega)

/-- Unfolding of `add_column` on a well-formed last region: the header and
separator rows are spliced, then the data loop runs from `s + 2` with the
supplied values (or `len(rows) - 2` empty strings). -/
theorem add_column_ok (content : List String) (header : String) (values : Option (List String))
    (s e : Nat) (hlast : (find_table_indices content).getLast? = some (s, e))
    (hwf : s + 2 ≤ e) (hlen : e ≤ content.length) :
    add_column content header values =
      (dataLoop
        ((content.set s (spliceSeg (content.getD s "")
            (' ' :: (stripData header.data ++ [' '])))).set (s + 1)
          (spliceSeg (content.getD (s + 1) "") [' ', '-', '-', '-', ' ']))
        (s + 2) e (values.getD (List.replicate (e - s - 2) "")), none) := by
  have hrows : ((content.drop s).take (e - s)).length = e - s := by
    rw [List.length_take, List.length_drop]
    omega
  have hr0 : ((content.drop s).take (e - s)).getD 0 "" = content.getD s "" := by
    rw [getD_take_drop content "" (by omega), Nat.add_zero]
  have hr1 : ((content.drop s).take (e - s)).getD 1 "" = content.getD (s + 1) "" := by
    rw [getD_take_drop content "" (by omega)]
  simp only [add_column, hlast]
  rw [if_neg (by rw [hrows]; omega), if_neg (by rw [hrows]; omega), hr0, hr1, hrows]

/-! ### C1: add_column data-row values -/

/-- C1 counterexample: with a supplied values list shorter than the number
of data rows, the rows beyond the supplied values are left unchanged; no
empty cell is inserted into them. -/
theorem C1_counterexample :
    (add_column ["| A |", "| --- |", "| x |", "| y |"] "D" (some ["1"])).1 =
      ["| A | D |", "| --- | --- |", "| x | 1 |", "| y |"] ∧
    (add_column ["| A |", "| --- |", "| x |", "| y |"] "D" (some ["1"])).1.getD 3 ""
      = "| y |" ∧
    ("| y |" : String) ≠ "| y |  |" := by
  decide

/-- C1 amended: on the last region `(s, e)` (well-formed: `s + 2 ≤ e ≤
length`), a supplied values list splices its `i`-th stripped value into
data row `s + 2 + i` and leaves data rows beyond the supplied values
unchanged; an omitted values list splices an empty cell into every data
row. -/
theorem C1_add_column_data_rows (content : List String) (header : String) (vs : List String)
    (s e : Nat) (hlast : (find_table_indices content).getLast? = some (s, e))
    (hwf : s + 2 ≤ e) (hlen : e ≤ content.length) :
    ((add_column content header (some vs)).2 = none ∧
      ∀ j, s + 2 ≤ j → j < e →
        (add_column content header (some vs)).1.getD j "" =
          if j - (s + 2) < vs.length then
            spliceSeg (content.getD j "")
              (' ' :: (stripData (vs.getD (j - (s + 2)) "").data ++ [' ']))
          else content.getD j "") ∧
    ((add_column content header none).2 = none ∧
      ∀ j, s + 2 ≤ j → j < e →
        (add_column content header none).1.getD j "" =
          spliceSeg (content.getD j "") [' ', ' ']) := by
  have hok1 := add_column_ok content header (some vs) s e hlast hwf hlen
  have hok2 := add_column_ok content header none s e hlast hwf hlen
  set c2 := (content.set s (spliceSeg (content.getD s "")
      (' ' :: (stripData header.data ++ [' '])))).set (s + 1)
    (spliceSeg (content.getD (s + 1) "") [' ', '-', '-', '-', ' ']) with hc2
  have hc2len : c2.length = content.length := by
    rw [hc2, List.length_set, List.length_set]
  have hc2getD : ∀ j, s + 2 ≤ j → c2.getD j "" = content.getD j "" := by
    intro j hj
    rw [hc2, getD_set_ne _ _ _ (by omega), getD_set_ne _ _ _ (by omega)]
  refine ⟨⟨by rw [hok1], ?_⟩, by rw [hok2], ?_⟩
  · intro j hj1 hj2
    rw [hok1]
    simp only [Option.getD_some]
    by_cases hv : j - (s + 2) < vs.length
    · rw [if_pos hv]
      rw [dataLoop_getD_hit vs c2 (s + 2) e j hj1 hj2 (by omega) (by rw [hc2len]; omega)]
      rw [hc2getD j hj1]
    · rw [if_neg hv]
      rw [dataLoop_getD_miss vs c2 (s + 2) e j "" (by omega)]
      exact hc2getD j hj1
  · intro j hj1 hj2
    rw [hok2]
    simp only [Option.getD_none]
    rw [dataLoop_getD_hit _ c2 (s + 2) e j hj1 hj2
      (by rw [List.length_replicate]; omega) (by rw [hc2len]; omega)]
    rw [hc2getD j hj1, getD_replicate_self _ _ _ _ (by omega)]
    rfl

/-- Witness for C1 on a one-data-row table. -/
theorem C1_witness :
    (add_column ["| A |", "| --- |", "| x |"] "D" (some ["1"])).1.getD 2 "" = "| x | 1 |" := by
  have h := (C1_add_column_data_rows ["| A |", "| --- |", "| x |"] "D" ["1"] 0 3
    (by decide) (by decide) (by decide)).1.2 2 (by omega) (by omega)
  rw [h]
  decide

/-! ### C10: frame property of add_column -/

/-- C10: `add_column` changes no buffer element outside `[s, e)` of the last
region, preserves the buffer length, and silently ignores supplied values
beyond the region's data rows. -/
theorem C10_add_column_frame (content : List String) (header : String)
    (values : Option (List String)) (s e : Nat)
    (hlast : (find_table_indices content).getLast? = some (s, e))
    (hwf : s + 2 ≤ e) (hlen : e ≤ content.length) :
    (∀ j, j < s ∨ e ≤ j →
      (add_column content header values).1.getD j "" = content.getD j "") ∧
    (add_column content header values).1.length = content.length ∧
    (∀ vs : List String, add_column content header (some vs) =
      add_column content header (some (vs.take (e - (s + 2))))) := by
  have hok := add_column_ok content header values s e hlast hwf hlen
  refine ⟨?_, ?_, ?_⟩
  · intro j hj
    rw [hok]
    dsimp only
    rcases hj with hj | hj
    · rw [dataLoop_getD_lt _ _ _ _ _ _ (by omega)]
      rw [getD_set_ne _ _ _ (by omega), getD_set_ne _ _ _ (by omega)]
    · rw [dataLoop_getD_ge _ _ _ _ _ _ hj]
      rw [getD_set_ne _ _ _ (by omega), getD_set_ne _ _ _ (by omega)]
  · rw [hok]
    dsimp only
    rw [dataLoop_length, List.length_set, List.length_set]
  · intro vs
    rw [add_column_ok content header (some vs) s e hlast hwf hlen,
      add_column_ok content header (some (vs.take (e - (s + 2)))) s e hlast hwf hlen]
    simp only [Option.getD_some]
    rw [dataLoop_take]

/-- Witness for C10: lines before and after the region are untouched. -/
theorem C10_witness :
    (add_column ["head", "| A |", "| --- |", "| x |", "tail"] "D" none).1.getD 0 "" =
      "head" ∧
    (add_column ["head", "| A |", "| --- |", "| x |", "tail"] "D" none).1.getD 4 "" =
      "tail" := by
  have h := C10_add_column_frame ["head", "| A |", "| --- |", "| x |", "tail"] "D" none 1 4
    (by decide) (by decide) (by decide)
  refine ⟨?_, ?_⟩
  · rw [h.1 0 (Or.inl (by omega))]
    decide
  · rw [h.1 4 (Or.inr (by omega))]
    decide

/-! ### C3: character-membership lemmas for the invariant -/

theorem mem_stripData {c : Char} {l : List Char} (h : c ∈ stripData l) : c ∈ l := by
  unfold stripData at h
  rw [List.mem_reverse] at h
  have h1 : c ∈ (l.dropWhile Char.isWhitespace).reverse :=
    (List.dropWhile_sublist _).subset h
  rw [List.mem_reverse] at h1
  exact (List.dropWhile_sublist _).subset h1

theorem mem_joinSepData {c : Char} {sep : List Char} :
    ∀ {parts : List (List Char)}, c ∈ joinSepData sep parts →
      c ∈ sep ∨ ∃ p ∈ parts, c ∈ p := by
  intro parts
  induction parts with
  | nil => intro h; simp [joinSepData] at h
  | cons x xs ih =>
    intro h
    cases xs with
    | nil =>
      simp only [joinSepData] at h
      exact Or.inr ⟨x, by simp, h⟩
    | cons y ys =>
      simp only [joinSepData] at h
      rcases List.mem_append.1 h with h1 | h2
      · rcases List.mem_append.1 h1 with hx | hs
        · exact Or.inr ⟨x, by simp, hx⟩
        · exact Or.inl hs
      · rcases ih h2 with h3 | ⟨p, hp, hc⟩
        · exact Or.inl h3
        · exact Or.inr ⟨p, List.mem_cons_of_mem _ hp, hc⟩

theorem mem_splitOnChar {sep : Char} :
    ∀ {l p : List Char}, p ∈ splitOnChar sep l → ∀ {c : Char}, c ∈ p → c ∈ l := by
  intro l
  induction l with
  | nil =>
    intro p hp c hc
    simp [splitOnChar] at hp
    subst hp
    simp at hc
  | cons a rest ih =>
    intro p hp c hc
    simp only [splitOnChar] at hp
    by_cases ha : a = sep
    · rw [if_pos ha] at hp
      rcases List.mem_cons.1 hp with h | h
      · subst h; simp at hc
      · exact List.mem_cons_of_mem _ (ih h hc)
    · rw [if_neg ha] at hp
      cases hsp : splitOnChar sep rest with
      | nil =>
        rw [hsp] at hp
        simp at hp
        subst hp
        simp at hc
        subst hc
        exact List.mem_cons_self _ _
      | cons l0 ls =>
        rw [hsp] at hp
        rcases List.mem_cons.1 hp with h | h
        · subst h
          rcases List.mem_cons.1 hc with h1 | h1
          · subst h1; exact List.mem_cons_self _ _
          · have hl0 : l0 ∈ splitOnChar sep rest := by
              rw [hsp]; exact List.mem_cons_self _ _
            exact List.mem_cons_of_mem _ (ih hl0 h1)
        · have hmem : p ∈ splitOnChar sep rest := by
            rw [hsp]; exact List.mem_cons_of_mem _ h
          exact List.mem_cons_of_mem _ (ih hmem hc)

theorem mem_insertBeforeLastL {x : List Char} {parts : List (List Char)} {p : List Char}
    (h : p ∈ insertBeforeLastL parts x) : p ∈ parts ∨ p = x := by
  unfold insertBeforeLastL at h
  rcases List.mem_append.1 h with h1 | h1
  · exact Or.inl (List.take_subset _ _ h1)
  · rcases List.mem_cons.1 h1 with h2 | h2
    · exact Or.inr h2
    · exact Or.inl (List.drop_subset _ _ h2)

theorem mem_spliceSeg {c : Char} {line : String} {seg : List Char}
    (h : c ∈ (spliceSeg line seg).data) : c = '|' ∨ c ∈ line.data ∨ c ∈ seg := by
  have h' : c ∈ joinSepData ['|'] (insertBeforeLastL (splitOnChar '|' line.data) seg) := h
  rcases mem_joinSepData h' with hs | ⟨p, hp, hc⟩
  · simp at hs
    exact Or.inl hs
  · rcases mem_insertBeforeLastL hp with hp1 | hp1
    · exact Or.inr (Or.inl (mem_splitOnChar hp1 hc))
    · subst hp1
      exact Or.inr (Or.inr hc)

theorem mem_makeRow {c : Char} {cells : List String} (h : c ∈ (makeRow cells).data) :
    c = '|' ∨ c = ' ' ∨ ∃ x ∈ cells, c ∈ x.data := by
  have h' : c ∈ '|' :: ' ' :: (joinSepData [' ', '|', ' '] (cells.map String.data) ++ [' ', '|']) := h
  rcases List.mem_cons.1 h' with h1 | h1
  · exact Or.inl h1
  rcases List.mem_cons.1 h1 with h2 | h2
  · exact Or.inr (Or.inl h2)
  rcases List.mem_append.1 h2 with h3 | h3
  · rcases mem_joinSepData h3 with hs | ⟨p, hp, hc⟩
    · rcases List.mem_cons.1 hs with h4 | h4
      · exact Or.inr (Or.inl h4)
      rcases List.mem_cons.1 h4 with h5 | h5
      · exact Or.inl h5
      · rcases List.mem_cons.1 h5 with h6 | h6
        · exact Or.inr (Or.inl h6)
        · simp at h6
    · rcases List.mem_map.1 hp with ⟨x, hx, rfl⟩
      exact Or.inr (Or.inr ⟨x, hx, hc⟩)
  · rcases List.mem_cons.1 h3 with h4 | h4
    · exact Or.inr (Or.inl h4)
    · rcases List.mem_cons.1 h4 with h5 | h5
      · exact Or.inl h5
      · simp at h5

theorem noNL_makeRow {cells : List String} (hcells : ∀ x ∈ cells, '\n' ∉ x.data) :
    '\n' ∉ (makeRow cells).data := by
  intro h
  rcases mem_makeRow h with h1 | h1 | ⟨x, hx, hc⟩
  · exact absurd h1 (by decide)
  · exact absurd h1 (by decide)
  · exact hcells x hx hc

theorem noNL_cellSeg {v : String} (hv : '\n' ∉ v.data) :
    '\n' ∉ ' ' :: (stripData v.data ++ [' ']) := by
  intro h
  rcases List.mem_cons.1 h with h1 | h1
  · exact absurd h1 (by decide)
  · rcases List.mem_append.1 h1 with h2 | h2
    · exact hv (mem_stripData h2)
    · simp at h2

theorem noNL_getD {content : List String} (h : noEmbeddedNewline content) (i : Nat) :
    '\n' ∉ (content.getD i "").data := by
  rcases hlt : content.get? i with _ | a
  · rw [List.getD_eq_getD_get?, hlt]
    intro hc
    simp at hc
  · rw [List.getD_eq_getD_get?, hlt]
    exact h a (List.get?_mem hlt)

theorem noNL_set {content : List String} {i : Nat} {a : String}
    (h : noEmbeddedNewline content) (ha : '\n' ∉ a.data) :
    noEmbeddedNewline (content.set i a) := by
  intro s hs
  rcases List.mem_or_eq_of_mem_set hs with h1 | h1
  · exact h s h1
  · subst h1
    exact ha

theorem noNL_spliceSeg {line : String} {seg : List Char}
    (hl : '\n' ∉ line.data) (hseg : '\n' ∉ seg) : '\n' ∉ (spliceSeg line seg).data := by
  intro h
  rcases mem_spliceSeg h with h1 | h1 | h1
  · exact absurd h1 (by decide)
  · exact hl h1
  · exact hseg h1

theorem noNL_dataLoop : ∀ (vs c : List String) (idx e : Nat),
    noEmbeddedNewline c → (∀ v ∈ vs, '\n' ∉ v.data) →
    noEmbeddedNewline (dataLoop c idx e vs) := by
  intro vs
  induction vs with
  | nil => intro c idx e hc _; exact hc
  | cons v vs ih =>
    intro c idx e hc hv
    simp only [dataLoop]
    apply ih
    · by_cases he : idx < e
      · rw [if_pos he]
        exact noNL_set hc
          (noNL_spliceSeg (noNL_getD hc idx) (noNL_cellSeg (hv v (List.mem_cons_self _ _))))
      · rw [if_neg he]
        exact hc
    · exact fun v' hv' => hv v' (List.mem_cons_of_mem _ hv')

/-- C3 counterexample: the invariant holds of the empty buffer but fails
after a single `add_header`, whose appended element embeds newlines. -/
theorem C3_counterexample :
    noEmbeddedNewline [] ∧ ¬ noEmbeddedNewline (add_header [] "X" 1) := by
  constructor
  · decide
  · decide

/-- C3 amended: the no-embedded-newline invariant is preserved by
`create_table`, `add_table_row` and `add_column` (given newline-free
arguments), but `add_header` and `add_text` always append an element
containing an embedded newline. -/
theorem C3_amended :
    (∀ (content headers : List String), noEmbeddedNewline content →
      (∀ h ∈ headers, '\n' ∉ h.data) →
      noEmbeddedNewline (create_table content headers).1) ∧
    (∀ (content values : List String), noEmbeddedNewline content →
      (∀ v ∈ values, '\n' ∉ v.data) →
      noEmbeddedNewline (add_table_row content values).1) ∧
    (∀ (content : List String) (header : String) (values : Option (List String)),
      noEmbeddedNewline content → '\n' ∉ header.data →
      (∀ vs, values = some vs → ∀ v ∈ vs, '\n' ∉ v.data) →
      noEmbeddedNewline (add_column content header values).1) ∧
    (∀ (content : List String) (text : String) (level : Int),
      '\n' ∈ ((add_header content text level).getD content.length "").data) ∧
    (∀ (content : List String) (text : String),
      '\n' ∈ ((add_text content text).getD content.length "").data) := by
  have hd : ∀ (a b : String), (a ++ b).data = a.data ++ b.data := fun a b => rfl
  refine ⟨?_, ?_, ?_, ?_, ?_⟩
  · intro content headers hcont hheaders
    by_cases he : headers.isEmpty
    · simp only [create_table, if_pos he]
      exact hcont
    · simp only [create_table, if_neg he]
      intro s hs
      rcases List.mem_append.1 hs with h1 | h1
      · exact hcont s h1
      rcases List.mem_cons.1 h1 with h2 | h2
      · subst h2; simp
      rcases List.mem_cons.1 h2 with h3 | h3
      · subst h3
        apply noNL_makeRow
        intro x hx
        rcases List.mem_map.1 hx with ⟨h0, hh0, rfl⟩
        exact fun hmem => hheaders h0 hh0 (mem_stripData hmem)
      · rcases List.mem_cons.1 h3 with h4 | h4
        · subst h4
          apply noNL_makeRow
          intro x hx
          rw [List.eq_of_mem_replicate hx]
          decide
        · simp at h4
  · intro content values hcont hvalues
    by_cases he : values.isEmpty
    · simp only [add_table_row, if_pos he]
      exact hcont
    · simp only [add_table_row, if_neg he]
      intro s hs
      rcases List.mem_append.1 hs with h1 | h1
      · exact hcont s h1
      · rcases List.mem_cons.1 h1 with h2 | h2
        · subst h2
          apply noNL_makeRow
          intro x hx
          rcases List.mem_map.1 hx with ⟨v0, hv0, rfl⟩
          exact fun hmem => hvalues v0 hv0 (mem_stripData hmem)
        · simp at h2
  · intro content header values hcont hheader hvalues
    rcases hfind : (find_table_indices content).getLast? with _ | ⟨s, e⟩
    · simp only [add_column, hfind]
      exact hcont
    · simp only [add_column, hfind]
      have hrows : noEmbeddedNewline ((content.drop s).take (e - s)) :=
        fun x hx => hcont x (List.drop_subset _ _ (List.take_subset _ _ hx))
      by_cases h0 : ((content.drop s).take (e - s)).length = 0
      · rw [if_pos h0]
        exact hcont
      · rw [if_neg h0]
        have hc1 : noEmbeddedNewline (content.set s
            (spliceSeg (((content.drop s).take (e - s)).getD 0 "")
              (' ' :: (stripData header.data ++ [' '])))) :=
          noNL_set hcont (noNL_spliceSeg (noNL_getD hrows 0) (noNL_cellSeg hheader))
        by_cases h1 : ((content.drop s).take (e - s)).length < 2
        · rw [if_pos h1]
          exact hc1
        · rw [if_neg h1]
          apply noNL_dataLoop
          · refine noNL_set hc1 (noNL_spliceSeg (noNL_getD hrows 1) ?_)
            decide
          · rcases values with _ | vs
            · simp only [Option.getD_none]
              intro v hv
              rw [List.eq_of_mem_replicate hv]
              decide
            · simp only [Option.getD_some]
              exact hvalues vs rfl
  · intro content text level
    rw [show add_header content text level = content ++
        ["\n" ++ (⟨List.replicate (max 1 (min 6 level)).toNat '#'⟩ : String) ++ " " ++
          pyStrip text ++ "\n"] from rfl,
      getD_concat_self]
    rw [hd, hd, hd, hd]
    exact List.mem_append_left _ (List.mem_append_left _ (List.mem_append_left _
      (List.mem_append_left _ (by decide))))
  · intro content text
    rw [show add_text content text = content ++ [text ++ "\n"] from rfl, getD_concat_self]
    rw [hd]
    exact List.mem_append_right _ (by decide)

/-- Witness for C3 on a concrete column insertion. -/
theorem C3_witness :
    noEmbeddedNewline (add_column ["| A |", "| --- |", "| x |"] "D" (some ["v"])).1 :=
  C3_amended.2.2.1 ["| A |", "| --- |", "| x |"] "D" (some ["v"]) (by decide) (by decide)
    (fun vs h => by injection h with h; subst h; decide)

/-! ### C4: save / load round trip -/

theorem pySplit_cons_nonbreak (c : Char) (rest : List Char) (hc : isPyLineBreak c = false) :
    pySplitlinesData (c :: rest) =
      match pySplitlinesData rest with
      | [] => [[c]]
      | l :: ls => (c :: l) :: ls := by
  have hcr : c ≠ '\r' := by
    intro h
    subst h
    simp [isPyLineBreak] at hc
  have hcb : ¬ isPyLineBreak c = true := by
    rw [hc]
    simp
  rcases rest with _ | ⟨d, rest2⟩
  · simp [pySplitlinesData, hcb]
  · by_cases hd : d = '\n'
    · subst hd
      simp [pySplitlinesData, hcb, hcr]
    · simp [pySplitlinesData, hcb, hcr, hd]

theorem pySplit_newline (rest : List Char) :
    pySplitlinesData ('\n' :: rest) = [] :: pySplitlinesData rest := by
  rcases rest with _ | ⟨d, rest2⟩
  · simp [pySplitlinesData, isPyLineBreak]
  · by_cases hd : d = '\n'
    · subst hd
      simp [pySplitlinesData, isPyLineBreak]
    · simp [pySplitlinesData, isPyLineBreak, hd]

/-- Splitting off one break-free line followed by a `\n` terminator. -/
theorem pySplit_line_append (l rest : List Char)
    (hl : ∀ c ∈ l, isPyLineBreak c = false) :
    pySplitlinesData (l ++ '\n' :: rest) = l :: pySplitlinesData rest := by
  induction l with
  | nil =>
    rw [List.nil_append, pySplit_newline]
  | cons c l ih =>
    rw [List.cons_append, pySplit_cons_nonbreak c _ (hl c (List.mem_cons_self _ _)),
      ih (fun c' hc' => hl c' (List.mem_cons_of_mem _ hc'))]

/-- The serialized buffer splits back into exactly the buffer's line data,
for a nonempty buffer of break-free lines. -/
theorem save_load_data : ∀ (content : List String), content ≠ [] →
    (∀ s ∈ content, ∀ c ∈ s.data, isPyLineBreak c = false) →
    pySplitlinesData (joinSepData ['\n'] (content.map String.data) ++ ['\n']) =
      content.map String.data := by
  intro content
  induction content with
  | nil => intro h _; exact absurd rfl h
  | cons x xs ih =>
    intro _ hnb
    cases xs with
    | nil =>
      show pySplitlinesData (x.data ++ ['\n']) = [x.data]
      exact pySplit_line_append x.data [] (hnb x (List.mem_cons_self _ _))
    | cons y ys =>
      show pySplitlinesData ((x.data ++ ['\n'] ++
          joinSepData ['\n'] ((y :: ys).map String.data)) ++ ['\n']) =
        x.data :: (y :: ys).map String.data
      simp only [List.append_assoc, List.singleton_append, List.cons_append]
      rw [pySplit_line_append _ _ (hnb x (List.mem_cons_self _ _))]
      congr 1
      exact ih (by simp) (fun s hs => hnb s (List.mem_cons_of_mem _ hs))

/-- C4 counterexample: the round trip fails on the empty buffer — saving
writes a lone newline, which loads back as one empty line. -/
theorem C4_counterexample :
    load_content (save_text []) = [""] ∧ ([""] : List String) ≠ [] := by
  constructor
  · decide
  · decide

/-- C4 amended: for a NONEMPTY buffer whose elements contain no line-break
character, saving then loading in preserve mode yields exactly the saved
lines; the stored text ends in a single `\n` and contains no `\r`. -/
theorem C4_round_trip (content : List String) (hne : content ≠ [])
    (hnb : ∀ s ∈ content, ∀ c ∈ s.data, isPyLineBreak c = false) :
    load_content (save_text content) = content ∧
    (save_text content).data.getLast? = some '\n' ∧
    '\r' ∉ (save_text content).data := by
  refine ⟨?_, ?_, ?_⟩
  · show (pySplitlinesData (joinSepData ['\n'] (content.map String.data) ++ ['\n'])).map
      String.mk = content
    rw [save_load_data content hne hnb, List.map_map,
      show String.mk ∘ String.data = id from funext fun s => rfl, List.map_id]
  · show (joinSepData ['\n'] (content.map String.data) ++ ['\n']).getLast? = some '\n'
    rw [List.getLast?_concat]
  · intro h
    have h' : '\r' ∈ joinSepData ['\n'] (content.map String.data) ++ ['\n'] := h
    rcases List.mem_append.1 h' with h1 | h1
    · rcases mem_joinSepData h1 with h2 | ⟨p, hp, hc⟩
      · simp at h2
      · rcases List.mem_map.1 hp with ⟨x, hx, rfl⟩
        exact absurd (hnb x hx '\r' hc) (by decide)
    · simp at h1

/-- Witness for C4 on a concrete two-line buffer. -/
theorem C4_witness :
    load_content (save_text ["a", "b"]) = ["a", "b"] ∧
    (save_text ["a", "b"]).data.getLast? = some '\n' ∧
    '\r' ∉ (save_text ["a", "b"]).data :=
  C4_round_trip ["a", "b"] (by decide) (by decide)
